import Mathlib

/-!
Shallow embedding of `scripts/update_do_spec.py`: a one-shot script that
fetches a DigitalOcean app specification, merges a fixed list of environment
entries into the service named "synoptic-web", removes hardcoded
`DATABASE_URL` entries and duplicate keys, and pushes the result back.
-/

namespace UpdateDoSpec

/-- Boolean test that `pre` is a prefix of `l` (character lists). -/
def startsWithCL : List Char → List Char → Bool
  | [], _ => true
  | _ :: _, [] => false
  | a :: as, b :: bs => a == b && startsWithCL as bs

/-- Boolean substring containment on character lists: `needle` occurs
somewhere inside the second list. -/
def containsCL (needle : List Char) : List Char → Bool
  | [] => needle.isEmpty
  | h :: t => startsWithCL needle (h :: t) || containsCL needle t

/-- Python's `needle in haystack` on strings. -/
def strContains (haystack needle : String) : Bool :=
  containsCL needle.toList haystack.toList

/-- Python's `str.lower()` (character-wise lowering). -/
def lowerStr (s : String) : String :=
  String.mk (s.toList.map Char.toLower)

/-- One environment-variable definition of a service.  `value`, `scope` and
`type` are optional in the JSON document (the script reads `e.get('value','')`),
`key` is always present. -/
structure EnvEntry where
  key : String
  value : Option String
  scope : Option String
  type : Option String
deriving DecidableEq

/-- The three optional process environment variables the transformer consults
(`os.environ.get`); `none` means unset. -/
structure OsEnv where
  JWT_SECRET : Option String
  AI_AGENT_LINGUIST_ID : Option String
  AI_AGENT_PHILOLOGIST_ID : Option String
deriving DecidableEq

/-- One service of the app specification: `service.get('name')`, its env
list (`service.get('envs', [])`), and the remaining JSON fields, which the
script never touches. -/
structure Service where
  name : Option String
  envs : List EnvEntry
  other : List (String × String)
deriving DecidableEq

/-- The fetched app specification: its service list plus all remaining JSON
fields, which the script never touches. -/
structure AppSpec where
  services : List Service
  other : List (String × String)
deriving DecidableEq

/-- Line 73 of the script: `e['key'] == 'DATABASE_URL' and '${' not in
e.get('value', '')`. -/
def isHardcodedDB (e : EnvEntry) : Bool :=
  e.key == "DATABASE_URL" && !(strContains (e.value.getD "") "$\x7b")

/-- Lines 70-78: the dedup loop.  `seen` is the set of keys already kept
(the script's `seen`), threaded as a list. -/
def dedupAux : List EnvEntry → List String → List EnvEntry
  | [], _ => []
  | e :: rest, seen =>
    if isHardcodedDB e then dedupAux rest seen
    else if seen.contains e.key then dedupAux rest seen
    else e :: dedupAux rest (e.key :: seen)

/-- The value of the script's `seen` set after the dedup loop has processed
a list, starting from `seen`. -/
def seenAfter : List EnvEntry → List String → List String
  | [], seen => seen
  | e :: rest, seen =>
    if isHardcodedDB e then seenAfter rest seen
    else if seen.contains e.key then seenAfter rest seen
    else seenAfter rest (e.key :: seen)

/-- Lines 55-61: the five hard-coded candidate entries, with the values
sourced from the process environment (`os.environ.get`) and their fallbacks. -/
def new_envs (env : OsEnv) : List EnvEntry :=
  [ ⟨"JWT_SECRET", some (env.JWT_SECRET.getD "synoptic-secure-jwt-secret-2025-production-key"),
      some "RUN_TIME", some "SECRET"⟩,
    ⟨"NEXT_PUBLIC_APP_URL", some "https://getsynoptic.com", some "RUN_AND_BUILD_TIME", none⟩,
    ⟨"NEXT_PUBLIC_AI_AGENT_LINGUIST_ID", some (env.AI_AGENT_LINGUIST_ID.getD ""),
      some "RUN_AND_BUILD_TIME", none⟩,
    ⟨"NEXT_PUBLIC_AI_AGENT_PHILOLOGIST_ID", some (env.AI_AGENT_PHILOLOGIST_ID.getD ""),
      some "RUN_AND_BUILD_TIME", none⟩,
    ⟨"NEXT_PUBLIC_ENABLE_AI_FEATURES", some "true", some "RUN_AND_BUILD_TIME", none⟩ ]

/-- Line 64 of the script: a candidate is appended iff its value is truthy
(non-empty) and its key is not among the pre-existing keys. -/
def candidateFilter (existing : List String) (c : EnvEntry) : Bool :=
  !(c.value.getD "").isEmpty && !existing.contains c.key

/-- Lines 51-79: what the script does to the env list of a matched service:
append the passing candidates, then run the dedup loop with an empty `seen`. -/
def transformEnvs (osenv : OsEnv) (envs : List EnvEntry) : List EnvEntry :=
  dedupAux (envs ++ (new_envs osenv).filter (candidateFilter (envs.map (·.key)))) []

/-- Lines 49-79 applied to one service: only a service whose name equals
`"synoptic-web"` has its env list replaced. -/
def transformService (osenv : OsEnv) (s : Service) : Service :=
  if s.name == some "synoptic-web" then { s with envs := transformEnvs osenv s.envs } else s

/-- The whole transformer: every service of the spec goes through
`transformService`; all other fields of the spec are untouched. -/
def transformSpec (osenv : OsEnv) (spec : AppSpec) : AppSpec :=
  { spec with services := spec.services.map (transformService osenv) }

/-- Result of one `subprocess.run` of curl: exit status, captured stdout and
stderr. -/
structure RunResult where
  returncode : Int
  stdout : String
  stderr : String
deriving DecidableEq

/-- How a run of the script ends after the credential check: fetch-transport
error (prints stderr, exit 1), error response to the PUT (prints the body,
exit 1), or success (exit 0). -/
inductive Outcome where
  | fetchError (stderr : String)
  | putError (body : String)
  | success
deriving DecidableEq

/-- Lines 42-44 and 91-96: the script's exit behaviour as a function of the
results of the two curl invocations.  The GET's exit status is checked; the
PUT's never is — only its response body is searched for `"error"` after
lowering. -/
def mainOutcome (fetchRes putRes : RunResult) : Outcome :=
  if fetchRes.returncode != 0 then Outcome.fetchError fetchRes.stderr
  else if strContains (lowerStr putRes.stdout) "error" then Outcome.putError putRes.stdout
  else Outcome.success

/-- Whether an outcome is a `sys.exit(1)` (non-zero process exit). -/
def exitsNonzero : Outcome → Bool
  | Outcome.success => false
  | _ => true

/-! Concrete sample inputs used to instantiate the general theorems. -/

/-- All three optional environment variables unset. -/
def osenvNone : OsEnv := ⟨none, none, none⟩

/-- A pre-existing hardcoded database entry, as in the spec's end-to-end test. -/
def dbLiteralX : EnvEntry := ⟨"DATABASE_URL", some "postgres://x", none, none⟩

/-- A hardcoded `DATABASE_URL` entry. -/
def dbHard : EnvEntry := ⟨"DATABASE_URL", some "postgres://literal", none, none⟩

/-- A templated `DATABASE_URL` entry. -/
def dbTempl : EnvEntry := ⟨"DATABASE_URL", some "$\x7bdb.DATABASE_URL\x7d", none, none⟩

/-- Two entries sharing the key `FOO`. -/
def fooA : EnvEntry := ⟨"FOO", some "a", none, none⟩

/-- Second entry with key `FOO`. -/
def fooB : EnvEntry := ⟨"FOO", some "b", none, none⟩

/-- The target service with a single hardcoded database entry. -/
def svcWeb : Service := ⟨some "synoptic-web", [dbLiteralX], []⟩

/-- A one-service spec containing the target service. -/
def specWeb : AppSpec := ⟨[svcWeb], []⟩

/-- A service that is not the target. -/
def svcOther : Service := ⟨some "api", [fooA], []⟩

/-- A one-service spec not containing the target service. -/
def specOther : AppSpec := ⟨[svcOther], []⟩

/-- The target service with two entries sharing key `DATABASE_URL`: a hardcoded one
first, a templated one second. -/
def svcWebDup : Service := ⟨some "synoptic-web", [dbHard, dbTempl], []⟩

/-- A one-service spec containing `svcWebDup`. -/
def specWebDup : AppSpec := ⟨[svcWebDup], []⟩

/-- A fetch response whose body is a parseable spec document
`\x7b"app":\x7b"spec":\x7b"services":[]\x7d\x7d\x7d`, as the script's JSON parse at
line 46 requires before the PUT can run. -/
def fetchOkParseable : RunResult :=
  ⟨0, "\x7b\"app\":\x7b\"spec\":\x7b\"services\":[]\x7d\x7d\x7d", ""⟩

/-! Basic lemmas about the dedup loop. -/

theorem isHardcodedDB_false_of_key {e : EnvEntry} (h : e.key ≠ "DATABASE_URL") :
    isHardcodedDB e = false := by
  simp [isHardcodedDB, h]

theorem strContains_of_not_bad {e : EnvEntry} (h : isHardcodedDB e = false)
    (hk : e.key = "DATABASE_URL") : strContains (e.value.getD "") "$\x7b" = true := by
  simp [isHardcodedDB, hk] at h
  exact h

theorem dedupAux_cons_keep (e : EnvEntry) (rest : List EnvEntry) (seen : List String)
    (h1 : isHardcodedDB e = false) (h2 : seen.contains e.key = false) :
    dedupAux (e :: rest) seen = e :: dedupAux rest (e.key :: seen) := by
  have h2' : e.key ∉ seen := by simpa using h2
  simp [dedupAux, h1, h2']

theorem mem_dedupAux_not_seen {e : EnvEntry} :
    ∀ (l : List EnvEntry) (seen : List String), e ∈ dedupAux l seen → e.key ∉ seen := by
  intro l
  induction l with
  | nil => intro seen h; simp [dedupAux] at h
  | cons a rest ih =>
    intro seen h
    simp only [dedupAux] at h
    split at h
    · exact ih seen h
    · split at h
      · exact ih seen h
      · next hseen =>
        rcases List.mem_cons.mp h with rfl | h2
        · simpa using hseen
        · have h3 := ih (a.key :: seen) h2
          exact fun hmem => h3 (List.mem_cons_of_mem _ hmem)

theorem mem_dedupAux_not_bad {e : EnvEntry} :
    ∀ (l : List EnvEntry) (seen : List String), e ∈ dedupAux l seen → isHardcodedDB e = false := by
  intro l
  induction l with
  | nil => intro seen h; simp [dedupAux] at h
  | cons a rest ih =>
    intro seen h
    simp only [dedupAux] at h
    split at h
    · exact ih seen h
    · next hbad =>
      split at h
      · exact ih seen h
      · rcases List.mem_cons.mp h with rfl | h2
        · simpa using hbad
        · exact ih _ h2

theorem dedupAux_sublist : ∀ (l : List EnvEntry) (seen : List String),
    (dedupAux l seen).Sublist l := by
  intro l
  induction l with
  | nil => intro seen; simp [dedupAux]
  | cons a rest ih =>
    intro seen
    simp only [dedupAux]
    split
    · exact (ih seen).cons a
    · split
      · exact (ih seen).cons a
      · exact (ih (a.key :: seen)).cons₂ a

theorem dedupAux_keys_nodup : ∀ (l : List EnvEntry) (seen : List String),
    ((dedupAux l seen).map (·.key)).Nodup := by
  intro l
  induction l with
  | nil => intro seen; simp [dedupAux]
  | cons a rest ih =>
    intro seen
    simp only [dedupAux]
    split
    · exact ih seen
    · split
      · exact ih seen
      · simp only [List.map_cons, List.nodup_cons]
        refine ⟨?_, ih (a.key :: seen)⟩
        intro hmem
        rcases List.mem_map.mp hmem with ⟨e, he, hkey⟩
        have h3 := mem_dedupAux_not_seen _ _ he
        exact h3 (by rw [hkey]; exact List.mem_cons_self _ _)

theorem dedupAux_eq_self : ∀ (l : List EnvEntry) (seen : List String),
    (∀ e ∈ l, isHardcodedDB e = false) → ((l.map (·.key)).Nodup) →
    (∀ e ∈ l, e.key ∉ seen) → dedupAux l seen = l := by
  intro l
  induction l with
  | nil => intro seen _ _ _; simp [dedupAux]
  | cons a rest ih =>
    intro seen hbad hnodup hseen
    have ha : isHardcodedDB a = false := hbad a (List.mem_cons_self _ _)
    have haseen : seen.contains a.key = false := by
      simpa using hseen a (List.mem_cons_self _ _)
    rw [dedupAux_cons_keep a rest seen ha haseen]
    congr 1
    apply ih (a.key :: seen)
    · intro e he; exact hbad e (List.mem_cons_of_mem _ he)
    · exact (List.nodup_cons.mp (by simpa using hnodup)).2
    · intro e he
      have hne : e.key ≠ a.key := by
        intro hEq
        have : a.key ∈ rest.map (·.key) := by
          rw [← hEq]; exact List.mem_map_of_mem _ he
        exact (List.nodup_cons.mp (by simpa using hnodup)).1 this
      intro hmem
      rcases List.mem_cons.mp hmem with hEq | hmem2
      · exact hne hEq
      · exact hseen e (List.mem_cons_of_mem _ he) hmem2

theorem key_mem_dedupAux : ∀ (l : List EnvEntry) (seen : List String) (k : String),
    k ≠ "DATABASE_URL" → k ∈ l.map (·.key) → k ∉ seen →
    k ∈ (dedupAux l seen).map (·.key) := by
  intro l
  induction l with
  | nil => intro seen k _ h _; simp at h
  | cons a rest ih =>
    intro seen k hk hmem hseen
    simp only [List.map_cons, List.mem_cons] at hmem
    by_cases hbad : isHardcodedDB a = true
    · have hkey : a.key = "DATABASE_URL" := by
        have h' := hbad
        simp [isHardcodedDB] at h'
        exact h'.1
      have hmem2 : k ∈ rest.map (·.key) := by
        rcases hmem with rfl | hmem2
        · exact absurd hkey hk
        · exact hmem2
      have hstep : dedupAux (a :: rest) seen = dedupAux rest seen := by
        simp [dedupAux, hbad]
      rw [hstep]
      exact ih seen k hk hmem2 hseen
    · have hbad' : isHardcodedDB a = false := by simpa using hbad
      by_cases hcont : a.key ∈ seen
      · have hstep : dedupAux (a :: rest) seen = dedupAux rest seen := by
          simp [dedupAux, hbad', hcont]
        have hmem2 : k ∈ rest.map (·.key) := by
          rcases hmem with rfl | hmem2
          · exact absurd hcont hseen
          · exact hmem2
        rw [hstep]
        exact ih seen k hk hmem2 hseen
      · rw [dedupAux_cons_keep a rest seen hbad' (by simpa using hcont)]
        simp only [List.map_cons, List.mem_cons]
        rcases hmem with rfl | hmem2
        · exact Or.inl rfl
        · by_cases hak : k = a.key
          · exact Or.inl hak
          · exact Or.inr (ih (a.key :: seen) k hk hmem2
              (by simp [List.mem_cons, hak, hseen]))

theorem dedupAux_filter_key : ∀ (l : List EnvEntry) (seen : List String) (k : String),
    k ≠ "DATABASE_URL" → k ∉ seen →
    (dedupAux l seen).filter (fun e => e.key == k) =
      (l.filter (fun e => e.key == k)).take 1 := by
  intro l
  induction l with
  | nil => intro seen k _ _; simp [dedupAux]
  | cons a rest ih =>
    intro seen k hk hseen
    by_cases hbad : isHardcodedDB a = true
    · have hkey : a.key = "DATABASE_URL" := by
        have h' := hbad
        simp [isHardcodedDB] at h'
        exact h'.1
      have hpa : (a.key == k) = false := by
        simp [hkey]
        intro hEq
        exact hk hEq.symm
      have hstep : dedupAux (a :: rest) seen = dedupAux rest seen := by
        simp [dedupAux, hbad]
      rw [hstep, List.filter_cons, hpa]
      simp only [Bool.false_eq_true, if_false]
      exact ih seen k hk hseen
    · have hbad' : isHardcodedDB a = false := by simpa using hbad
      by_cases hcont : a.key ∈ seen
      · have hstep : dedupAux (a :: rest) seen = dedupAux rest seen := by
          simp [dedupAux, hbad', hcont]
        have hpa : (a.key == k) = false := by
          simp
          intro hEq
          rw [hEq] at hcont
          exact hseen hcont
        rw [hstep, List.filter_cons, hpa]
        simp only [Bool.false_eq_true, if_false]
        exact ih seen k hk hseen
      · rw [dedupAux_cons_keep a rest seen hbad' (by simpa using hcont)]
        by_cases hak : a.key = k
        · have hpa : (a.key == k) = true := by simp [hak]
          rw [List.filter_cons, hpa, List.filter_cons, hpa]
          simp only [if_true]
          have hnil : (dedupAux rest (a.key :: seen)).filter (fun e => e.key == k) = [] := by
            rw [List.filter_eq_nil_iff]
            intro e he
            have h3 := mem_dedupAux_not_seen _ _ he
            simp only [beq_iff_eq]
            intro hEq
            rw [hEq, hak] at h3
            exact h3 (List.mem_cons_self _ _)
          rw [hnil]
          simp
        · have hpa : (a.key == k) = false := by simp [hak]
          rw [List.filter_cons, hpa, List.filter_cons, hpa]
          simp only [Bool.false_eq_true, if_false]
          exact ih (a.key :: seen) k hk
            (by simp [List.mem_cons, hseen]; intro hEq; exact hak hEq.symm)

theorem dedupAux_append : ∀ (l1 l2 : List EnvEntry) (seen : List String),
    dedupAux (l1 ++ l2) seen = dedupAux l1 seen ++ dedupAux l2 (seenAfter l1 seen) := by
  intro l1
  induction l1 with
  | nil => intro l2 seen; simp [dedupAux, seenAfter]
  | cons a rest ih =>
    intro l2 seen
    by_cases hbad : isHardcodedDB a = true
    · have h1 : dedupAux ((a :: rest) ++ l2) seen = dedupAux (rest ++ l2) seen := by
        simp [dedupAux, hbad]
      have h2 : dedupAux (a :: rest) seen = dedupAux rest seen := by
        simp [dedupAux, hbad]
      have h3 : seenAfter (a :: rest) seen = seenAfter rest seen := by
        simp [seenAfter, hbad]
      rw [h1, h2, h3]
      exact ih l2 seen
    · have hbad' : isHardcodedDB a = false := by simpa using hbad
      by_cases hcont : a.key ∈ seen
      · have h1 : dedupAux ((a :: rest) ++ l2) seen = dedupAux (rest ++ l2) seen := by
          simp [dedupAux, hbad', hcont]
        have h2 : dedupAux (a :: rest) seen = dedupAux rest seen := by
          simp [dedupAux, hbad', hcont]
        have h3 : seenAfter (a :: rest) seen = seenAfter rest seen := by
          simp [seenAfter, hbad', hcont]
        rw [h1, h2, h3]
        exact ih l2 seen
      · have h1 : dedupAux ((a :: rest) ++ l2) seen =
            a :: dedupAux (rest ++ l2) (a.key :: seen) := by
          rw [List.cons_append]
          exact dedupAux_cons_keep a (rest ++ l2) seen hbad' (by simpa using hcont)
        have h2 : dedupAux (a :: rest) seen = a :: dedupAux rest (a.key :: seen) :=
          dedupAux_cons_keep a rest seen hbad' (by simpa using hcont)
        have h3 : seenAfter (a :: rest) seen = seenAfter rest (a.key :: seen) := by
          simp [seenAfter, hbad', hcont]
        rw [h1, h2, h3, List.cons_append]
        rw [ih l2 (a.key :: seen)]

theorem mem_seenAfter : ∀ (l : List EnvEntry) (seen : List String) (k : String),
    k ∈ seenAfter l seen → k ∈ seen ∨ k ∈ l.map (·.key) := by
  intro l
  induction l with
  | nil => intro seen k h; exact Or.inl (by simpa [seenAfter] using h)
  | cons a rest ih =>
    intro seen k h
    simp only [seenAfter] at h
    split at h
    · rcases ih seen k h with h1 | h1
      · exact Or.inl h1
      · exact Or.inr (by simp [h1])
    · split at h
      · rcases ih seen k h with h1 | h1
        · exact Or.inl h1
        · exact Or.inr (by simp [h1])
      · rcases ih (a.key :: seen) k h with h1 | h1
        · rcases List.mem_cons.mp h1 with rfl | h2
          · exact Or.inr (by simp)
          · exact Or.inl h2
        · exact Or.inr (by simp [h1])

theorem new_envs_keys_eq (osenv : OsEnv) :
    (new_envs osenv).map (·.key) =
      ["JWT_SECRET", "NEXT_PUBLIC_APP_URL", "NEXT_PUBLIC_AI_AGENT_LINGUIST_ID",
       "NEXT_PUBLIC_AI_AGENT_PHILOLOGIST_ID", "NEXT_PUBLIC_ENABLE_AI_FEATURES"] := rfl

theorem new_envs_key_ne_db (osenv : OsEnv) : ∀ c ∈ new_envs osenv, c.key ≠ "DATABASE_URL" := by
  intro c hc
  have hmem : c.key ∈ (new_envs osenv).map (·.key) := List.mem_map_of_mem _ hc
  rw [new_envs_keys_eq] at hmem
  intro hEq
  rw [hEq] at hmem
  exact absurd hmem (by decide)

theorem new_envs_keys_nodup (osenv : OsEnv) : ((new_envs osenv).map (·.key)).Nodup := by
  rw [new_envs_keys_eq]
  decide

theorem mem_dedupAux_of_unique : ∀ (l : List EnvEntry) (seen : List String) (e : EnvEntry),
    e ∈ l → e.key ∉ seen → e.key ≠ "DATABASE_URL" → (l.map (·.key)).count e.key = 1 →
    e ∈ dedupAux l seen := by
  intro l
  induction l with
  | nil => intro seen e h; simp at h
  | cons a rest ih =>
    intro seen e hmem hseen hdb hcount
    rcases List.mem_cons.mp hmem with rfl | hmem2
    · rw [dedupAux_cons_keep _ _ _ (isHardcodedDB_false_of_key hdb) (by simpa using hseen)]
      exact List.mem_cons_self _ _
    · have hkey_ne : e.key ≠ a.key := by
        intro hEq
        have h1 : 0 < (rest.map (·.key)).count e.key :=
          List.count_pos_iff.mpr (List.mem_map_of_mem _ hmem2)
        rw [List.map_cons, List.count_cons, if_pos (by simp [hEq])] at hcount
        omega
      have hcount' : (rest.map (·.key)).count e.key = 1 := by
        rw [List.map_cons, List.count_cons, if_neg (by simp [hkey_ne.symm])] at hcount
        simpa using hcount
      by_cases hbad : isHardcodedDB a = true
      · have hstep : dedupAux (a :: rest) seen = dedupAux rest seen := by
          simp [dedupAux, hbad]
        rw [hstep]
        exact ih seen e hmem2 hseen hdb hcount'
      · have hbad' : isHardcodedDB a = false := by simpa using hbad
        by_cases hcont : a.key ∈ seen
        · have hstep : dedupAux (a :: rest) seen = dedupAux rest seen := by
            simp [dedupAux, hbad', hcont]
          rw [hstep]
          exact ih seen e hmem2 hseen hdb hcount'
        · rw [dedupAux_cons_keep a rest seen hbad' (by simpa using hcont)]
          refine List.mem_cons_of_mem _ (ih (a.key :: seen) e hmem2 ?_ hdb hcount')
          simp [List.mem_cons, hkey_ne, hseen]

theorem map_eq_self_of_fixed : ∀ (l : List Service) (f : Service → Service),
    (∀ s ∈ l, f s = s) → l.map f = l := by
  intro l f h
  induction l with
  | nil => rfl
  | cons a rest ih =>
    simp only [List.map_cons]
    rw [h a (List.mem_cons_self _ _), ih (fun s hs => h s (List.mem_cons_of_mem _ hs))]

/-- C1 counterexample: in a spec whose target service's env list is
`[hardcoded DATABASE_URL, templated DATABASE_URL]`, the transformed service named
"synoptic-web" retains the templated entry — the second occurrence of its key in
append order — and not the first occurrence, refuting the claim's conjunct that
the first occurrence in append order is the one retained. -/
theorem C1_counterexample :
    svcWebDup.name = some "synoptic-web" ∧
    svcWebDup.envs.head? = some dbHard ∧
    dbTempl.key = dbHard.key ∧
    transformService osenvNone svcWebDup ∈ (transformSpec osenvNone specWebDup).services ∧
    (transformService osenvNone svcWebDup).name = some "synoptic-web" ∧
    dbHard ∉ (transformService osenvNone svcWebDup).envs ∧
    dbTempl ∈ (transformService osenvNone svcWebDup).envs := by
  decide

/-- C1 amended: for every input specification and setting of the optional
environment variables, within the env list of every transformed service named
"synoptic-web" each key occurs at most once and no entry has key `DATABASE_URL`
whose value lacks the substring `"${"`; and for every key other than
`DATABASE_URL` the retained entry is the first occurrence in append order
(original entries followed by the appended candidates). -/
theorem C1_invariant_amended (osenv : OsEnv) (spec : AppSpec) (s0 : Service)
    (hs : s0 ∈ spec.services) (hname : s0.name = some "synoptic-web") :
    transformService osenv s0 ∈ (transformSpec osenv spec).services ∧
    (((transformService osenv s0).envs.map (·.key)).Nodup) ∧
    (∀ e ∈ (transformService osenv s0).envs, e.key = "DATABASE_URL" →
      strContains (e.value.getD "") "$\x7b" = true) ∧
    (∀ k, k ≠ "DATABASE_URL" →
      (transformService osenv s0).envs.filter (fun e => e.key == k) =
        ((s0.envs ++ (new_envs osenv).filter (candidateFilter (s0.envs.map (·.key)))).filter
          (fun e => e.key == k)).take 1) := by
  have hdef : transformService osenv s0 = { s0 with envs := transformEnvs osenv s0.envs } := by
    unfold transformService
    rw [if_pos (by simp [hname])]
  refine ⟨List.mem_map_of_mem _ hs, ?_, ?_, ?_⟩
  · rw [hdef]
    exact dedupAux_keys_nodup _ _
  · rw [hdef]
    intro e he hk
    exact strContains_of_not_bad (mem_dedupAux_not_bad _ _ he) hk
  · rw [hdef]
    intro k hk
    exact dedupAux_filter_key _ [] k hk (by simp)

/-- C1 amended witness: for the concrete one-service spec whose target service
carries a hardcoded `DATABASE_URL` entry, the keys are unique and the retained
`JWT_SECRET` entry is the first occurrence in append order. -/
theorem C1_invariant_amended_witness :
    (((transformService osenvNone svcWeb).envs.map (·.key)).Nodup) ∧
    (transformService osenvNone svcWeb).envs.filter (fun e => e.key == "JWT_SECRET") =
      ((svcWeb.envs ++ (new_envs osenvNone).filter
        (candidateFilter (svcWeb.envs.map (·.key)))).filter
        (fun e => e.key == "JWT_SECRET")).take 1 :=
  ⟨(C1_invariant_amended osenvNone specWeb svcWeb (by decide) (by decide)).2.1,
   (C1_invariant_amended osenvNone specWeb svcWeb (by decide) (by decide)).2.2.2
     "JWT_SECRET" (by decide)⟩

/-- C2: For the input service `{name:"synoptic-web", envs:[{key:"DATABASE_URL",
value:"postgres://x"}]}` with none of the optional environment variables set, the
output env list contains `NEXT_PUBLIC_APP_URL`, `NEXT_PUBLIC_ENABLE_AI_FEATURES`,
and `JWT_SECRET` with its hard-coded fallback value, and contains no entry with key
`DATABASE_URL`, `NEXT_PUBLIC_AI_AGENT_LINGUIST_ID`, or
`NEXT_PUBLIC_AI_AGENT_PHILOLOGIST_ID`. -/
theorem C2_end_to_end :
    (⟨"JWT_SECRET", some "synoptic-secure-jwt-secret-2025-production-key", some "RUN_TIME",
        some "SECRET"⟩ : EnvEntry) ∈ (transformService osenvNone svcWeb).envs ∧
    "NEXT_PUBLIC_APP_URL" ∈ (transformService osenvNone svcWeb).envs.map (·.key) ∧
    "NEXT_PUBLIC_ENABLE_AI_FEATURES" ∈ (transformService osenvNone svcWeb).envs.map (·.key) ∧
    "DATABASE_URL" ∉ (transformService osenvNone svcWeb).envs.map (·.key) ∧
    "NEXT_PUBLIC_AI_AGENT_LINGUIST_ID" ∉ (transformService osenvNone svcWeb).envs.map (·.key) ∧
    "NEXT_PUBLIC_AI_AGENT_PHILOLOGIST_ID" ∉
      (transformService osenvNone svcWeb).envs.map (·.key) := by
  decide

/-- C3 counterexample: with a successful fetch whose body is a parseable spec
document (so the run reaches the PUT), a PUT transport failure (non-zero exit
status, empty captured stdout) does not terminate the process with a non-zero exit
code — the script never inspects the PUT's exit status, so the run reports
success. -/
theorem C3_counterexample :
    fetchOkParseable.returncode = 0 ∧
    (RunResult.mk 7 "" "curl: (7) Failed to connect").returncode ≠ 0 ∧
    exitsNonzero
      (mainOutcome fetchOkParseable (RunResult.mk 7 "" "curl: (7) Failed to connect"))
      = false := by
  decide

/-- C3 amended: a non-zero exit status from the fetch (GET) causes the process to
print the captured stderr and terminate with a non-zero exit code; the push (PUT)'s
exit status is never examined — the outcome depends on the PUT only through its
response body. -/
theorem C3_fetch_failure_exits (f p q : RunResult) :
    (f.returncode ≠ 0 →
      mainOutcome f p = Outcome.fetchError f.stderr ∧ exitsNonzero (mainOutcome f p) = true) ∧
    (p.stdout = q.stdout → mainOutcome f p = mainOutcome f q) := by
  constructor
  · intro h
    have h' : (f.returncode != 0) = true := by simpa using h
    simp [mainOutcome, h', exitsNonzero]
  · intro h
    simp [mainOutcome, h]

/-- C3 witness: a concrete failing fetch exits non-zero printing its stderr. -/
theorem C3_fetch_failure_exits_witness :
    mainOutcome (RunResult.mk 1 "" "boom") (RunResult.mk 0 "" "") = Outcome.fetchError "boom" ∧
    exitsNonzero (mainOutcome (RunResult.mk 1 "" "boom") (RunResult.mk 0 "" "")) = true :=
  (C3_fetch_failure_exits (RunResult.mk 1 "" "boom") (RunResult.mk 0 "" "")
    (RunResult.mk 0 "" "")).1 (by decide)

/-- C5: a pre-existing `DATABASE_URL` entry with value `"postgres://literal"` is
removed by the transformer, while one with value `"${db.DATABASE_URL}"` is
retained, whatever the optional environment variables are. -/
theorem C5_database_url_removal (osenv : OsEnv) :
    dbHard ∉ transformEnvs osenv [dbHard] ∧ dbTempl ∈ transformEnvs osenv [dbTempl] := by
  constructor
  · intro h
    exact absurd (mem_dedupAux_not_bad _ _ h) (by decide)
  · show dbTempl ∈ dedupAux ([dbTempl] ++ _) []
    rw [List.singleton_append,
      dedupAux_cons_keep _ _ _ (by decide) (by decide)]
    exact List.mem_cons_self _ _

/-- C4: the transformer is idempotent on the target service's env list: for every
initial env list and fixed environment-variable settings, applying the
transformation twice yields the same final env list as applying it once. -/
theorem C4_idempotent (osenv : OsEnv) (envs : List EnvEntry) :
    transformEnvs osenv (transformEnvs osenv envs) = transformEnvs osenv envs := by
  have hkeys : ∀ c ∈ new_envs osenv, (c.value.getD "").isEmpty = false →
      c.key ∈ (transformEnvs osenv envs).map (·.key) := by
    intro c hc hval
    have hkDB : c.key ≠ "DATABASE_URL" := new_envs_key_ne_db osenv c hc
    have hmem : c.key ∈ (envs ++ (new_envs osenv).filter
        (candidateFilter (envs.map (·.key)))).map (·.key) := by
      rw [List.map_append]
      by_cases hmem0 : c.key ∈ envs.map (·.key)
      · exact List.mem_append_left _ hmem0
      · refine List.mem_append_right _ ?_
        refine List.mem_map_of_mem _ ?_
        refine List.mem_filter.mpr ⟨hc, ?_⟩
        simp [candidateFilter, hval, hmem0]
    exact key_mem_dedupAux _ [] c.key hkDB hmem (by simp)
  have hnil : (new_envs osenv).filter
      (candidateFilter ((transformEnvs osenv envs).map (·.key))) = [] := by
    rw [List.filter_eq_nil_iff]
    intro c hc
    by_cases hval : (c.value.getD "").isEmpty
    · simp [candidateFilter, hval]
    · have hval' : (c.value.getD "").isEmpty = false := by simpa using hval
      have hk := hkeys c hc hval'
      simp [candidateFilter, hk]
  show dedupAux (transformEnvs osenv envs ++ _) [] = transformEnvs osenv envs
  rw [hnil, List.append_nil]
  exact dedupAux_eq_self _ []
    (fun e he => mem_dedupAux_not_bad _ _ he)
    (dedupAux_keys_nodup _ _)
    (fun e _ => by simp)

/-- C6 counterexample: with two entries sharing key `DATABASE_URL` — a hardcoded one
followed by a templated one — the first entry is dropped and the later entry with
the repeated key survives, contrary to the claim. -/
theorem C6_counterexample :
    dbHard.key = dbTempl.key ∧
    dbHard ∉ transformEnvs osenvNone [dbHard, dbTempl] ∧
    dbTempl ∈ transformEnvs osenvNone [dbHard, dbTempl] := by
  decide

/-- C6 amended: for every key other than `DATABASE_URL` occurring in the target
service's env list, exactly the first entry with that key (in original order)
survives the transformation and every later entry with that repeated key is
dropped. -/
theorem C6_first_occurrence_wins (osenv : OsEnv) (envs : List EnvEntry) (k : String)
    (hk : k ≠ "DATABASE_URL") (hmem : k ∈ envs.map (·.key)) :
    (transformEnvs osenv envs).filter (fun e => e.key == k) =
      (envs.filter (fun e => e.key == k)).take 1 := by
  unfold transformEnvs
  rw [dedupAux_filter_key _ [] k hk (by simp), List.filter_append]
  have hnil : ((new_envs osenv).filter (candidateFilter (envs.map (·.key)))).filter
      (fun e => e.key == k) = [] := by
    rw [List.filter_eq_nil_iff]
    intro e he
    have hcf := (List.mem_filter.mp he).2
    simp only [candidateFilter, Bool.and_eq_true, Bool.not_eq_true'] at hcf
    have hnot : e.key ∉ envs.map (·.key) := by simpa using hcf.2
    simp only [beq_iff_eq]
    intro hEq
    rw [hEq] at hnot
    exact hnot hmem
  rw [hnil, List.append_nil]

/-- C6 amended witness: of two concrete entries sharing key `FOO`, only the first
survives. -/
theorem C6_first_occurrence_wins_witness :
    (transformEnvs osenvNone [fooA, fooB]).filter (fun e => e.key == "FOO") =
      ([fooA, fooB].filter (fun e => e.key == "FOO")).take 1 :=
  C6_first_occurrence_wins osenvNone [fooA, fooB] "FOO" (by decide) (by decide)

/-- C7: for a target service with an empty env list, the transformer appends exactly
those of the five candidates whose resolved value is non-empty, and the final
length equals the number of such candidates. -/
theorem C7_empty_env_list (osenv : OsEnv) :
    transformEnvs osenv [] = (new_envs osenv).filter (fun c => !(c.value.getD "").isEmpty) ∧
    (transformEnvs osenv []).length =
      ((new_envs osenv).filter (fun c => !(c.value.getD "").isEmpty)).length := by
  have h1 : transformEnvs osenv [] =
      (new_envs osenv).filter (fun c => !(c.value.getD "").isEmpty) := by
    unfold transformEnvs
    rw [List.nil_append]
    have hf : (new_envs osenv).filter (candidateFilter (([] : List EnvEntry).map (·.key))) =
        (new_envs osenv).filter (fun c => !(c.value.getD "").isEmpty) := by
      apply List.filter_congr
      intro c _
      simp [candidateFilter]
    rw [hf]
    apply dedupAux_eq_self
    · intro e he
      exact isHardcodedDB_false_of_key (new_envs_key_ne_db osenv e (List.mem_filter.mp he).1)
    · exact List.Nodup.sublist ((List.filter_sublist _).map _) (new_envs_keys_nodup osenv)
    · intro e _
      simp
  exact ⟨h1, by rw [h1]⟩

/-- C8: a specification in which no service is named "synoptic-web" is left entirely
unchanged by the transformer. -/
theorem C8_noop (osenv : OsEnv) (spec : AppSpec)
    (h : ∀ s ∈ spec.services, s.name ≠ some "synoptic-web") :
    transformSpec osenv spec = spec := by
  unfold transformSpec
  have hmap : spec.services.map (transformService osenv) = spec.services := by
    apply map_eq_self_of_fixed
    intro s hs
    unfold transformService
    rw [if_neg (by simpa using h s hs)]
  rw [hmap]

/-- C8 witness: a concrete spec whose only service is named "api" is unchanged. -/
theorem C8_noop_witness : transformSpec osenvNone specOther = specOther :=
  C8_noop osenvNone specOther (by decide)

/-- C9: after a successful fetch, the pusher treats the literal substring "error"
(compared case-insensitively, i.e. searched in the lowered response body) anywhere
in the PUT response body as failure — printing the body and exiting non-zero — and
reports success for every body not containing it. -/
theorem C9_put_error_detection (f p : RunResult) (hf : f.returncode = 0) :
    (strContains (lowerStr p.stdout) "error" = true →
      mainOutcome f p = Outcome.putError p.stdout ∧ exitsNonzero (mainOutcome f p) = true) ∧
    (strContains (lowerStr p.stdout) "error" = false → mainOutcome f p = Outcome.success) := by
  have hf' : (f.returncode != 0) = false := by simp [hf]
  constructor
  · intro h
    simp [mainOutcome, hf', h, exitsNonzero]
  · intro h
    simp [mainOutcome, hf', h]

/-- C9 witness: after a successful fetch with a parseable body, a concrete PUT
response containing "ERROR" makes the run exit non-zero printing the body. -/
theorem C9_put_error_detection_witness :
    mainOutcome fetchOkParseable (RunResult.mk 0 "Internal ERROR occurred" "") =
      Outcome.putError "Internal ERROR occurred" ∧
    exitsNonzero (mainOutcome fetchOkParseable
      (RunResult.mk 0 "Internal ERROR occurred" "")) = true :=
  (C9_put_error_detection fetchOkParseable
    (RunResult.mk 0 "Internal ERROR occurred" "") rfl).1 (by decide)

/-- C10: the transformed env list is the dedup of the original entries followed by
the appended candidates in their fixed order; the retained originals are a sublist
of the original env list (entries unchanged, relative order kept); and every
original entry whose key is not `DATABASE_URL` and is not repeated is retained. -/
theorem C10_frame_and_order (osenv : OsEnv) (envs : List EnvEntry) :
    transformEnvs osenv envs =
      dedupAux envs [] ++ (new_envs osenv).filter (candidateFilter (envs.map (·.key))) ∧
    (dedupAux envs []).Sublist envs ∧
    (∀ e ∈ envs, e.key ≠ "DATABASE_URL" → (envs.map (·.key)).count e.key = 1 →
      e ∈ dedupAux envs []) := by
  refine ⟨?_, dedupAux_sublist envs [], ?_⟩
  · unfold transformEnvs
    rw [dedupAux_append]
    congr 1
    apply dedupAux_eq_self
    · intro e he
      exact isHardcodedDB_false_of_key (new_envs_key_ne_db osenv e (List.mem_filter.mp he).1)
    · exact List.Nodup.sublist ((List.filter_sublist _).map _) (new_envs_keys_nodup osenv)
    · intro e he hmem
      rcases mem_seenAfter envs [] e.key hmem with h0 | hk
      · simp at h0
      · have hcf := (List.mem_filter.mp he).2
        simp only [candidateFilter, Bool.and_eq_true, Bool.not_eq_true'] at hcf
        have hnot : e.key ∉ envs.map (·.key) := by simpa using hcf.2
        exact hnot hk
  · intro e he hdb hc
    exact mem_dedupAux_of_unique envs [] e he (by simp) hdb hc

/-- C10 witness: a concrete unique non-database entry is retained by the dedup. -/
theorem C10_frame_and_order_witness : fooA ∈ dedupAux [fooA] [] :=
  (C10_frame_and_order osenvNone [fooA]).2.2 fooA (by decide) (by decide) (by decide)

end UpdateDoSpec
